import Mathlib

/-!
Shallow embedding of `kno-url-scraper/red-team-versions/kno-url.c`
(Kusanagi Night Ops URL scraper, C edition).

Strings are modelled as `List Char` (C byte strings over the ASCII range the
program manipulates).  Each definition mirrors one C function or one block of
`main`'s per-line command processing; loops that advance by more than one
character per step are represented with an explicit fuel argument initialised
to the input length, which dominates the number of loop iterations, so the
definitions stay structurally recursive and kernel-evaluable.
-/

/-- C `isspace` on the default locale (ASCII): space, \t, \n, \v, \f, \r. -/
def isSpaceC (c : Char) : Bool :=
  c = ' ' || c = '\t' || c = '\n' || c = '\x0b' || c = '\x0c' || c = '\r'

/-- The characters that terminate an extracted URL token in
`extract_urls_from_html`: whitespace plus `"` `'` `<` `>`. -/
def isStop (c : Char) : Bool :=
  isSpaceC c || c = '"' || c = '\'' || c = '<' || c = '>'

/-- C `tolower` on ASCII. -/
def toLowerC (c : Char) : Char :=
  if 'A' ≤ c ∧ c ≤ 'Z' then Char.ofNat (c.toNat + 32) else c

/-- C `isdigit`. -/
def isDigitC (c : Char) : Bool := '0' ≤ c && c ≤ '9'

/-- The scheme literal `http://` (extraction anchor). -/
def httpLit : List Char := "http://".toList

/-- The scheme literal `https://` (extraction anchor). -/
def httpsLit : List Char := "https://".toList

/-- The scheme literal `blob:` (extraction anchor). -/
def blobLit : List Char := "blob:".toList

/-- C `strstr(haystack, needle) != NULL`: `needle` occurs as a substring,
checked at every suffix position. -/
def strstr_bool (needle : List Char) : List Char → Bool
  | [] => needle.isPrefixOf []
  | c :: rest => needle.isPrefixOf (c :: rest) || strstr_bool needle rest

/-- `strcasestr_bool` from the source: case-insensitive substring test,
false on an empty needle. -/
def strcasestr_bool (haystack needle : List Char) : Bool :=
  if needle = [] then false
  else strstr_bool (needle.map toLowerC) (haystack.map toLowerC)

/-- `normalize_url` from the source.  `none` models the C `NULL` return on an
empty input.  Rule order: already schemed → unchanged; `www.` prefix →
prepend `https://`; contains `.` or `:` → prepend `https://`; otherwise
unchanged. -/
def normalize_url (u : List Char) : Option (List Char) :=
  if u = [] then none
  else if httpLit.isPrefixOf u || httpsLit.isPrefixOf u then some u
  else if ("www.".toList).isPrefixOf u then some ("https://".toList ++ u)
  else if u.contains '.' || u.contains ':' then some ("https://".toList ++ u)
  else some u

/-- The URL token starting at the current position: characters up to (not
including) the first stop character (the C loop advancing `q`). -/
def takeTok (l : List Char) : List Char := l.takeWhile (fun c => !isStop c)

/-- The rest of the text after the current URL token (the C scan resumes at
`q`, the stop character itself). -/
def dropTok (l : List Char) : List Char := l.dropWhile (fun c => !isStop c)

/-- One `strstr` scanning pass of `extract_urls_from_html` for a single scheme
literal `s`, with explicit fuel (each step consumes at least one character, so
fuel = length of the text suffices).  At each occurrence of `s` the token runs
to the first stop character and scanning resumes right after the token. -/
def scanSchemeF (s : List Char) : Nat → List Char → List (List Char)
  | 0, _ => []
  | _ + 1, [] => []
  | fuel + 1, c :: rest =>
    if s.isPrefixOf (c :: rest) then
      (c :: takeTok rest) :: scanSchemeF s fuel (dropTok rest)
    else
      scanSchemeF s fuel rest

/-- One scanning pass for scheme `s` over the whole text. -/
def scanScheme (s l : List Char) : List (List Char) := scanSchemeF s l.length l

/-- `extract_urls_from_html` from the source: three independent passes, in the
fixed order `http://`, `https://`, `blob:`, results concatenated. -/
def extract_urls_from_html (html : List Char) : List (List Char) :=
  scanScheme httpLit html ++ scanScheme httpsLit html ++ scanScheme blobLit html

/-- Number of positions of `l` at which `s` occurs as a substring
(occurrence = `s` is a prefix of the suffix starting there). -/
def countOccs (s : List Char) : List Char → Nat
  | [] => 0
  | c :: rest => (if s.isPrefixOf (c :: rest) then 1 else 0) + countOccs s rest

/-- Separation condition on a text, fuelled like `scanSchemeF`: every token
the scan extracts contains exactly one occurrence of the scheme literal, i.e.
no second occurrence of the literal falls inside an extracted token. -/
def sepOkF (s : List Char) : Nat → List Char → Bool
  | 0, _ => true
  | _ + 1, [] => true
  | fuel + 1, c :: rest =>
    if s.isPrefixOf (c :: rest) then
      (countOccs s (c :: takeTok rest) == 1) && sepOkF s fuel (dropTok rest)
    else
      sepOkF s fuel rest

/-- Separation condition over the whole text. -/
def sepOk (s l : List Char) : Bool := sepOkF s l.length l

/-- `get_ext` from the source: the suffix of the URL starting at the last
`.`; empty if there is no `.` or if a `/` occurs at or after the last `.`. -/
def get_ext (u : List Char) : List Char :=
  if '.' ∈ u then
    let ext := '.' :: (u.reverse.takeWhile (fun c => c ≠ '.')).reverse
    if '/' ∈ ext then [] else ext
  else []

/-- The `lower_ext` buffer computed in `categorize_url`: the extension
lowercased, but emptied when the extension does not fit the 16-byte buffer
(length ≥ 16). -/
def lower_ext (u : List Char) : List Char :=
  let ext := get_ext u
  if ext.length < 16 then ext.map toLowerC else []

/-- The API test of `categorize_url`: literal `/api/` substring, or
`graphql` case-insensitively anywhere. -/
def api_hit (u : List Char) : Bool :=
  strstr_bool "/api/".toList u || strcasestr_bool u "graphql".toList

/-- `categorize_url` from the source: returns one of the six category label
strings, API test first, then the fixed extension tables, else OTHER. -/
def categorize_url (u : List Char) : String :=
  if api_hit u then "API / ENDPOINTS"
  else if lower_ext u = ".js".toList || lower_ext u = ".mjs".toList then
    "SCRIPTS"
  else if lower_ext u = ".png".toList || lower_ext u = ".jpg".toList ||
          lower_ext u = ".jpeg".toList || lower_ext u = ".gif".toList ||
          lower_ext u = ".svg".toList || lower_ext u = ".webp".toList ||
          lower_ext u = ".ico".toList || lower_ext u = ".mp4".toList ||
          lower_ext u = ".mov".toList || lower_ext u = ".wav".toList then
    "MEDIA"
  else if lower_ext u = ".json".toList || lower_ext u = ".xml".toList ||
          lower_ext u = ".yml".toList || lower_ext u = ".yaml".toList ||
          lower_ext u = ".pdf".toList || lower_ext u = ".txt".toList ||
          lower_ext u = ".doc".toList || lower_ext u = ".docx".toList ||
          lower_ext u = ".csv".toList then
    "DOCUMENTS / CONFIG"
  else if lower_ext u = ".html".toList || lower_ext u = ".htm".toList ||
          strstr_bool ".bundle.js".toList u || strstr_bool ".chunk.js".toList u then
    "HTML / FRAMEWORK"
  else "OTHER"

/-- The six category labels in the fixed display order of `run_html_mode`. -/
def category_labels : List String :=
  ["SCRIPTS", "MEDIA", "API / ENDPOINTS", "DOCUMENTS / CONFIG",
   "HTML / FRAMEWORK", "OTHER"]

/-- The extension tables consulted before the HTML / FRAMEWORK case of
`categorize_url` (SCRIPTS, MEDIA and DOCUMENTS / CONFIG extensions). -/
def pre_html_exts : List (List Char) :=
  [".js".toList, ".mjs".toList,
   ".png".toList, ".jpg".toList, ".jpeg".toList, ".gif".toList, ".svg".toList,
   ".webp".toList, ".ico".toList, ".mp4".toList, ".mov".toList, ".wav".toList,
   ".json".toList, ".xml".toList, ".yml".toList, ".yaml".toList, ".pdf".toList,
   ".txt".toList, ".doc".toList, ".docx".toList, ".csv".toList]

/-- The flag state accumulated by `run_html_mode`'s argument loop. -/
structure ScrapeFlags where
  use_scripts : Bool
  use_media : Bool
  use_api : Bool
  use_docs : Bool
  use_html : Bool
  use_other : Bool
  no_media_mode : Bool
  search_terms : List (List Char)

/-- The `wanted` (identically, the `excluded`) computation of
`run_html_mode`: the URL's category is one of the flagged categories. -/
def wantedCat (fl : ScrapeFlags) (cat : String) : Bool :=
  (cat = "SCRIPTS" && fl.use_scripts) ||
  (cat = "MEDIA" && fl.use_media) ||
  (cat = "API / ENDPOINTS" && fl.use_api) ||
  (cat = "DOCUMENTS / CONFIG" && fl.use_docs) ||
  (cat = "HTML / FRAMEWORK" && fl.use_html) ||
  (cat = "OTHER" && fl.use_other)

/-- `have_cat_flags` from `run_html_mode`. -/
def have_cat_flags (fl : ScrapeFlags) : Bool :=
  fl.use_scripts || fl.use_media || fl.use_api || fl.use_docs ||
  fl.use_html || fl.use_other

/-- The search-term filter of `run_html_mode`: with a non-empty term set
keep a URL iff some term matches case-insensitively (OR semantics). -/
def searchKeep (fl : ScrapeFlags) (u : List Char) : Bool :=
  if fl.search_terms.length > 0 then
    fl.search_terms.any (fun t => strcasestr_bool u t)
  else true

/-- The category-filter step of `run_html_mode`'s per-URL loop: the
`have_cat_flags`/`wanted` check followed by the `no_media_mode`/`excluded`
check (a URL survives iff neither `continue` fires). -/
def cat_filter_keep (fl : ScrapeFlags) (u : List Char) : Bool :=
  (if have_cat_flags fl then wantedCat fl (categorize_url u) else true) &&
  (if fl.no_media_mode then !(wantedCat fl (categorize_url u)) else true)

/-- The category-filter step applied to an extracted URL sequence. -/
def category_filter_step (fl : ScrapeFlags) (urls : List (List Char)) :
    List (List Char) :=
  urls.filter (cat_filter_keep fl)

/-- The whole per-URL filter of `run_html_mode` (search-term filter, then
category filter, then exclusion check). -/
def keep_url (fl : ScrapeFlags) (u : List Char) : Bool :=
  searchKeep fl u && cat_filter_keep fl u

/-- Value of a digit string (the C `val = val * 10 + (buf[i] - '0')`
accumulation, also `atol` on an all-digit buffer). -/
def digitsVal (l : List Char) : Int :=
  l.foldl (fun a c => a * 10 + ((c.toNat : Int) - 48)) 0

/-- The group loop of `parse_duration_seconds`, fuelled (each iteration
consumes at least one character): a run of digits followed by `h`, `m`, `s`
or end of string adds the scaled value; anything else fails. -/
def parseGroupsF : Nat → List Char → Int → Option Int
  | 0, _, _ => none
  | _ + 1, [], total => some total
  | fuel + 1, c :: rest, total =>
    if isDigitC c then
      let val := digitsVal ((c :: rest).takeWhile isDigitC)
      match (c :: rest).dropWhile isDigitC with
      | 'h' :: r => parseGroupsF fuel r (total + val * 3600)
      | 'm' :: r => parseGroupsF fuel r (total + val * 60)
      | 's' :: r => parseGroupsF fuel r (total + val)
      | [] => some (total + val)
      | _ :: _ => none
    else none

/-- `parse_duration_seconds` from the source: strip whitespace and lowercase
into a 127-character buffer; an empty buffer fails (-1); an all-digit buffer
is read directly (no positivity check, like the C `atol` path); otherwise the
`h`/`m`/`s` group loop runs and the result must be positive. -/
def parse_duration_seconds (s : List Char) : Int :=
  let buf := ((s.filter (fun c => !isSpaceC c)).map toLowerC).take 127
  if buf = [] then -1
  else if buf.all isDigitC then digitsVal buf
  else
    match parseGroupsF (buf.length + 1) buf 0 with
    | none => -1
    | some total => if total > 0 then total else -1

/-- A token the C code treats as a flag: first byte is `-`. -/
def is_flag_tok (t : List Char) : Bool := t.head? = some '-'

/-- The `-sd` scan of `main`: find the first `-sd` token; the duration is the
run of following non-flag tokens; the tokens before `-sd`, and from the next
flag on, survive the removal loop.  `none` when no `-sd` token is present. -/
def splitAtSd :
    List (List Char) →
      Option (List (List Char) × List (List Char) × List (List Char))
  | [] => none
  | a :: rest =>
    if a = "-sd".toList then
      some ([], rest.takeWhile (fun t => !is_flag_tok t),
            rest.dropWhile (fun t => !is_flag_tok t))
    else
      match splitAtSd rest with
      | none => none
      | some (pre, dur, post) => some (a :: pre, dur, post)

/-- The `valid_flags` table of `main`'s unknown-flag detection. -/
def valid_flags : List (List Char) :=
  ["-s".toList, "-md".toList, "-a".toList, "-d".toList, "-ht".toList,
   "-O".toList, "--no-media".toList, "--search".toList, "--full".toList,
   "-o".toList, "-u".toList, "-h".toList, "--help".toList]

/-- The unknown-flag loop of `main`: the first token starting with `-` that
is not in `valid_flags`. -/
def firstUnknownFlag : List (List Char) → Option (List Char)
  | [] => none
  | a :: rest =>
    if is_flag_tok a && !(valid_flags.contains a) then some a
    else firstUnknownFlag rest

/-- Outcome of `main`'s processing of one line's flag list (everything after
the URL token), up to the dispatch into `run_html_mode`. -/
inductive LineRes where
  | errSdNoValue : LineRes
  | errSdInvalid : LineRes
  | errSdWithoutNightOps : LineRes
  | errNightOpsNoSd : LineRes
  | netPrompt : LineRes
  | errUnknownFlag : List Char → LineRes
  | scrape : List (List Char) → Option Int → LineRes
deriving DecidableEq

/-- The checks of `main` that follow the `-sd` scan, in source order: `-sd`
without `--night-ops` rejects; `--night-ops` without a parsed `-sd` delay
rejects; the `--night-ops` tokens are dropped; `-n` branches to the network
stub; the first unknown flag rejects; otherwise the scrape is dispatched. -/
def afterSd (args : List (List Char)) (sd : Option Int) (night_ops : Bool) :
    LineRes :=
  if sd.isSome && !night_ops then .errSdWithoutNightOps
  else if night_ops && sd.isNone then .errNightOpsNoSd
  else
    let args2 :=
      if night_ops then args.filter (fun t => t ≠ "--night-ops".toList)
      else args
    if args2.contains "-n".toList then .netPrompt
    else
      match firstUnknownFlag args2 with
      | some f => .errUnknownFlag f
      | none => .scrape args2 sd

/-- The `durbuf` assembly of `main`: duration tokens joined with single
spaces into a 128-byte buffer (at most 127 characters kept). -/
def joinSpace (ts : List (List Char)) : List Char :=
  (List.intercalate [' '] ts).take 127

/-- `main`'s validation of one line's flag list: the night-ops flag scan, the
`-sd` scan with its missing-value and invalid-duration rejections, then the
`afterSd` checks. -/
def processArgs (args : List (List Char)) : LineRes :=
  let night_ops := args.contains "--night-ops".toList
  match splitAtSd args with
  | none => afterSd args none night_ops
  | some (pre, durToks, post) =>
    let durbuf := joinSpace durToks
    if durbuf = [] then .errSdNoValue
    else
      let sd := parse_duration_seconds durbuf
      if sd ≤ 0 then .errSdInvalid
      else afterSd (pre ++ post) (some sd) night_ops

/-- The three rejections `main` can produce for a bad `-sd` usage. -/
def is_sd_rejection : LineRes → Bool
  | .errSdNoValue => true
  | .errSdInvalid => true
  | .errSdWithoutNightOps => true
  | _ => false

/-- A filesystem mutation the night-ops cleanup attempts. -/
inductive FsOp where
  | removeCacheDir : FsOp
  | removeExe : FsOp
deriving DecidableEq

/-- Whether the session loop continues after a branch or the process exits. -/
inductive SessionStep where
  | continueLoop : SessionStep
  | exitProcess : SessionStep
deriving DecidableEq

/-- The filesystem operations attempted by `night_ops_cleanup`, in order:
remove the `.kno-url` directory next to the executable, then remove the
executable itself. -/
def night_ops_cleanup_ops : List FsOp := [.removeCacheDir, .removeExe]

/-- The standalone `--night-ops` branch of `main`: on a failed read or a
response whose first character is not `y`/`Y` it cancels (no filesystem
operation, loop continues); otherwise it runs the cleanup and exits. -/
def night_ops_standalone (resp : Option (List Char)) :
    List FsOp × SessionStep :=
  match resp with
  | none => ([], .continueLoop)
  | some a =>
    if a.head? = some 'y' || a.head? = some 'Y' then
      (night_ops_cleanup_ops, .exitProcess)
    else ([], .continueLoop)

/-! Helper lemmas. -/

theorem prefix_bool_iff (l₁ l₂ : List Char) : l₁.isPrefixOf l₂ = true ↔ l₁ <+: l₂ :=
  List.isPrefixOf_iff_prefix

theorem contains_true_iff (l : List (List Char)) (a : List Char) :
    l.contains a = true ↔ a ∈ l := by
  simp [List.contains, List.elem_iff]

theorem prefix_takeWhile (p l : List Char) (q : Char → Bool)
    (hp : p <+: l) (hq : ∀ x ∈ p, q x = true) : p <+: l.takeWhile q := by
  induction p generalizing l with
  | nil => exact List.nil_prefix
  | cons a as ih =>
    cases l with
    | nil => exact absurd (List.prefix_nil.mp hp) (by simp)
    | cons b bs =>
      rw [List.cons_prefix_cons] at hp
      obtain ⟨rfl, hp2⟩ := hp
      rw [List.takeWhile_cons, if_pos (hq a (by simp))]
      exact List.cons_prefix_cons.mpr ⟨rfl, ih bs hp2 (fun x hx => hq x (by simp [hx]))⟩

theorem head_dropWhile_false (q : Char → Bool) (l : List Char) (y : Char)
    (ys : List Char) (h : l.dropWhile q = y :: ys) : q y = false := by
  induction l with
  | nil => cases h
  | cons a as ih =>
    rw [List.dropWhile_cons] at h
    by_cases hqa : q a = true
    · rw [if_pos hqa] at h; exact ih h
    · rw [if_neg hqa] at h
      injection h with h1 _
      subst h1
      exact Bool.eq_false_iff.mpr hqa

theorem prefix_append_split (s b r : List Char) (h1 : s <+: b ++ r)
    (h2 : ¬ s <+: b) : ∃ s₂, s = b ++ s₂ ∧ s₂ <+: r ∧ s₂ ≠ [] := by
  induction b generalizing s with
  | nil =>
    refine ⟨s, by simp, by simpa using h1, ?_⟩
    rintro rfl
    exact h2 (List.nil_prefix)
  | cons x b' ih =>
    cases s with
    | nil => exact absurd (List.nil_prefix) h2
    | cons a s' =>
      rw [List.cons_append, List.cons_prefix_cons] at h1
      obtain ⟨rfl, h1'⟩ := h1
      have h2' : ¬ s' <+: b' := fun hc => h2 (List.cons_prefix_cons.mpr ⟨rfl, hc⟩)
      obtain ⟨s₂, he, hpr, hne⟩ := ih s' h1' h2'
      exact ⟨s₂, by rw [List.cons_append, he], hpr, hne⟩

theorem prefix_head_eq (s : List Char) (c : Char) (rest : List Char)
    (hne : s ≠ []) (h : s <+: c :: rest) : ∃ s', s = c :: s' ∧ s' <+: rest := by
  cases s with
  | nil => exact absurd rfl hne
  | cons a s' =>
    rw [List.cons_prefix_cons] at h
    exact ⟨s', by rw [h.1], h.2⟩

theorem countOccs_cons (s : List Char) (c : Char) (rest : List Char) :
    countOccs s (c :: rest) =
      (if s.isPrefixOf (c :: rest) then 1 else 0) + countOccs s rest := rfl

theorem countOccs_cons_zero (s : List Char) (c : Char) (rest : List Char)
    (h : countOccs s (c :: rest) = 0) :
    s.isPrefixOf (c :: rest) = false ∧ countOccs s rest = 0 := by
  rw [countOccs_cons] at h
  by_cases hp : s.isPrefixOf (c :: rest) = true
  · rw [if_pos hp] at h; omega
  · rw [if_neg hp] at h
    exact ⟨Bool.eq_false_iff.mpr hp, by omega⟩

theorem countOccs_append_no_occ (s : List Char)
    (hstop : ∀ x ∈ s, isStop x = false) (t r : List Char)
    (h0 : countOccs s t = 0) (hr : ∀ y ys, r = y :: ys → isStop y = true) :
    countOccs s (t ++ r) = countOccs s r := by
  induction t with
  | nil => simp
  | cons x u ih =>
    obtain ⟨hx1, hx2⟩ := countOccs_cons_zero s x u h0
    rw [List.cons_append, countOccs_cons]
    have hfalse : s.isPrefixOf (x :: (u ++ r)) = false := by
      apply Bool.eq_false_iff.mpr
      intro hc
      have hpre : s <+: (x :: u) ++ r := by
        rw [List.cons_append]; exact (prefix_bool_iff _ _).mp hc
      have hnot : ¬ s <+: (x :: u) := fun hcc =>
        by simp [(prefix_bool_iff _ _).mpr hcc] at hx1
      obtain ⟨s₂, hse, hs₂r, hs₂ne⟩ := prefix_append_split s (x :: u) r hpre hnot
      cases s₂ with
      | nil => exact hs₂ne rfl
      | cons y ys =>
        cases r with
        | nil => simp [List.prefix_nil] at hs₂r
        | cons z zs =>
          rw [List.cons_prefix_cons] at hs₂r
          obtain ⟨rfl, _⟩ := hs₂r
          have hy_in : y ∈ s := by rw [hse]; exact List.mem_append_right _ (by simp)
          have h1 := hstop y hy_in
          have h2 := hr y zs rfl
          rw [h1] at h2
          cases h2
    rw [hfalse]
    simpa using ih hx2

theorem scan_length_eq_countOccs_aux (s : List Char) (hs_ne : s ≠ [])
    (hstop : ∀ x ∈ s, isStop x = false) :
    ∀ (fuel : Nat) (l : List Char), l.length ≤ fuel → sepOkF s fuel l = true →
      (scanSchemeF s fuel l).length = countOccs s l := by
  intro fuel
  induction fuel with
  | zero =>
    intro l hl _
    have : l = [] := List.length_eq_zero.mp (Nat.le_zero.mp hl)
    subst this
    rfl
  | succ n ih =>
    intro l hl hsep
    cases l with
    | nil => rfl
    | cons c rest =>
      have hrest : rest.length ≤ n := by simpa using hl
      by_cases hp : s.isPrefixOf (c :: rest) = true
      · simp only [scanSchemeF, sepOkF, if_pos hp] at hsep ⊢
        obtain ⟨h1, h2⟩ := Bool.and_eq_true_iff.mp hsep
        have h1' : countOccs s (c :: takeTok rest) = 1 := Nat.eq_of_beq_eq_true (by simpa using h1)
        have hfuel : (dropTok rest).length ≤ n :=
          le_trans (List.Sublist.length_le (List.dropWhile_sublist _)) hrest
        rw [List.length_cons, ih (dropTok rest) hfuel h2, countOccs_cons, if_pos hp]
        obtain ⟨s', hse, hs'⟩ :=
          prefix_head_eq s c rest hs_ne ((prefix_bool_iff _ _).mp hp)
        have hs'stop : ∀ x ∈ s', (fun c => !isStop c) x = true := by
          intro x hx
          have : x ∈ s := by rw [hse]; simp [hx]
          simp [hstop x this]
        have hstok : s <+: c :: takeTok rest := by
          rw [hse]
          exact List.cons_prefix_cons.mpr
            ⟨rfl, prefix_takeWhile s' rest _ hs' hs'stop⟩
        have htok0 : countOccs s (takeTok rest) = 0 := by
          rw [countOccs_cons, if_pos ((prefix_bool_iff _ _).mpr hstok)] at h1'
          omega
        have key : countOccs s rest = countOccs s (dropTok rest) := by
          conv_lhs =>
            rw [← List.takeWhile_append_dropWhile (fun c => !isStop c) rest]
          exact countOccs_append_no_occ s hstop (takeTok rest) (dropTok rest)
            htok0 (fun y ys hy => by
              have := head_dropWhile_false (fun c => !isStop c) rest y ys hy
              simpa using this)
        omega
      · simp only [scanSchemeF, sepOkF, if_neg hp] at hsep ⊢
        rw [countOccs_cons, if_neg hp, ih rest hrest hsep]
        omega

theorem scan_tokens_sound (s : List Char) (hs_ne : s ≠ [])
    (hstop : ∀ x ∈ s, isStop x = false) :
    ∀ (fuel : Nat) (l : List Char) (tok : List Char),
      tok ∈ scanSchemeF s fuel l →
      s <+: tok ∧ ∀ c ∈ tok, isStop c = false := by
  intro fuel
  induction fuel with
  | zero => intro l tok h; cases h
  | succ n ih =>
    intro l tok h
    cases l with
    | nil => cases h
    | cons c rest =>
      by_cases hp : s.isPrefixOf (c :: rest) = true
      · simp only [scanSchemeF, if_pos hp] at h
        rcases List.mem_cons.mp h with rfl | hmem
        · obtain ⟨s', hse, hs'⟩ :=
            prefix_head_eq s c rest hs_ne ((prefix_bool_iff _ _).mp hp)
          have hs'stop : ∀ x ∈ s', (fun c => !isStop c) x = true := by
            intro x hx
            have : x ∈ s := by rw [hse]; simp [hx]
            simp [hstop x this]
          refine ⟨?_, ?_⟩
          · rw [hse]
            exact List.cons_prefix_cons.mpr
              ⟨rfl, prefix_takeWhile s' rest _ hs' hs'stop⟩
          · intro x hx
            rcases List.mem_cons.mp hx with rfl | hx2
            · exact hstop x (by rw [hse]; simp)
            · have := List.mem_takeWhile_imp hx2
              simpa using this
        · exact ih (dropTok rest) tok hmem
      · simp only [scanSchemeF, if_neg hp] at h
        exact ih rest tok h

theorem splitAtSd_of_mem (args : List (List Char)) (h : "-sd".toList ∈ args) :
    ∃ pre dur post, splitAtSd args = some (pre, dur, post) := by
  induction args with
  | nil => cases h
  | cons a rest ih =>
    unfold splitAtSd
    by_cases ha : a = "-sd".toList
    · rw [if_pos ha]; exact ⟨_, _, _, rfl⟩
    · rw [if_neg ha]
      have hmem : "-sd".toList ∈ rest := by
        rcases List.mem_cons.mp h with he | hm
        · exact absurd he.symm ha
        · exact hm
      obtain ⟨p, d, q, hs⟩ := ih hmem
      rw [hs]
      exact ⟨_, _, _, rfl⟩

theorem splitAtSd_of_not_mem (args : List (List Char))
    (h : "-sd".toList ∉ args) : splitAtSd args = none := by
  induction args with
  | nil => rfl
  | cons a rest ih =>
    unfold splitAtSd
    have ha : ¬ a = "-sd".toList := fun he => h (by simp [he])
    rw [if_neg ha, ih (fun hm => h (List.mem_cons_of_mem a hm))]

theorem contains_false_of_not_mem (args : List (List Char)) (a : List Char)
    (h : a ∉ args) : args.contains a = false :=
  Bool.eq_false_iff.mpr (fun hc => h ((contains_true_iff args a).mp hc))

theorem processArgs_sd_no_nightops (args : List (List Char))
    (hsd : "-sd".toList ∈ args) (hno : "--night-ops".toList ∉ args) :
    processArgs args = .errSdNoValue ∨ processArgs args = .errSdInvalid ∨
      processArgs args = .errSdWithoutNightOps := by
  obtain ⟨pre, dur, post, hs⟩ := splitAtSd_of_mem args hsd
  have hnb : args.contains "--night-ops".toList = false :=
    contains_false_of_not_mem args _ hno
  simp only [processArgs, hs, hnb]
  by_cases h1 : joinSpace dur = []
  · rw [if_pos h1]; exact Or.inl rfl
  · rw [if_neg h1]
    by_cases h2 : parse_duration_seconds (joinSpace dur) ≤ 0
    · rw [if_pos h2]; exact Or.inr (Or.inl rfl)
    · rw [if_neg h2]
      refine Or.inr (Or.inr ?_)
      simp [afterSd]

theorem http_not_prefix_of_https_append (u : List Char) :
    httpLit.isPrefixOf ("https://".toList ++ u) = false := rfl

theorem https_prefix_of_https_append (u : List Char) :
    httpsLit.isPrefixOf ("https://".toList ++ u) = true :=
  (prefix_bool_iff _ _).mpr (List.prefix_append httpsLit u)

theorem https_append_ne_nil (u : List Char) : "https://".toList ++ u ≠ [] := by
  intro h
  exact absurd (congrArg List.length h) (by simp)

theorem normalize_of_https_prefix (v : List Char)
    (hv : httpsLit.isPrefixOf v = true) : normalize_url v = some v := by
  have hvne : v ≠ [] := by
    intro hveq
    rw [hveq] at hv
    cases hv
  unfold normalize_url
  rw [if_neg hvne, if_pos (by rw [hv, Bool.or_true])]

theorem rev_bundle :
    ".bundle.js".toList.reverse = 's' :: 'j' :: '.' :: "eldnub.".toList := by
  decide

theorem rev_chunk :
    ".chunk.js".toList.reverse = 's' :: 'j' :: '.' :: "knuhc.".toList := by
  decide

theorem takeWhile_js_rev (X : List Char) :
    List.takeWhile (fun c => c ≠ '.') ('s' :: 'j' :: '.' :: X) = ['s', 'j'] := rfl

theorem get_ext_append_bundle (v : List Char) :
    get_ext (v ++ ".bundle.js".toList) = ".js".toList := by
  unfold get_ext
  rw [if_pos (List.mem_append.mpr (Or.inr (by decide)))]
  rw [List.reverse_append, rev_bundle]
  simp only [List.cons_append]
  rw [takeWhile_js_rev, if_neg (by decide)]
  decide

theorem get_ext_append_chunk (v : List Char) :
    get_ext (v ++ ".chunk.js".toList) = ".js".toList := by
  unfold get_ext
  rw [if_pos (List.mem_append.mpr (Or.inr (by decide)))]
  rw [List.reverse_append, rev_chunk]
  simp only [List.cons_append]
  rw [takeWhile_js_rev, if_neg (by decide)]
  decide

theorem lower_ext_eq_js (u : List Char) (h : get_ext u = ".js".toList) :
    lower_ext u = ".js".toList := by
  unfold lower_ext
  rw [h]
  decide

/-!
Claim theorems.
-/

/-- C1: the category-filter step of `run_html_mode` with at least one
category flag set and exclusion mode (`--no-media`) set does NOT keep the
URLs whose category is unflagged: the inclusion filter runs first and keeps
only flagged categories, then the exclusion check drops exactly those, so
the step keeps nothing at all, for every flag state and every URL list. -/
theorem c1_category_filter_with_exclusion_is_empty (fl : ScrapeFlags)
    (urls : List (List Char)) (h1 : have_cat_flags fl = true)
    (h2 : fl.no_media_mode = true) : category_filter_step fl urls = [] := by
  unfold category_filter_step
  rw [List.filter_eq_nil_iff]
  intro a _
  unfold cat_filter_keep
  rw [if_pos h1, if_pos h2]
  simp

/-- Witness for C1 at the failing input of the claim: flags `-md --no-media`
on a MEDIA URL and a SCRIPTS URL; the claim expects the unflagged SCRIPTS
URL to survive, the code keeps nothing. -/
theorem c1_category_filter_with_exclusion_is_empty_witness :
    have_cat_flags ⟨false, true, false, false, false, false, true, []⟩ = true ∧
    (ScrapeFlags.mk false true false false false false true []).no_media_mode
      = true ∧
    categorize_url "https://x/cat.jpg".toList = "MEDIA" ∧
    categorize_url "https://x/app.js".toList = "SCRIPTS" ∧
    category_filter_step ⟨false, true, false, false, false, false, true, []⟩
      ["https://x/cat.jpg".toList, "https://x/app.js".toList] = [] :=
  ⟨rfl, rfl, by decide, by decide,
   c1_category_filter_with_exclusion_is_empty _ _ rfl rfl⟩

/-- C2 counterexample: a line whose flag list holds the unrecognized flag
`--badflag` together with `-sd 90s` and no `--night-ops` is rejected by the
`-sd`-without-night-ops check, not by the unknown-flag check naming
`--badflag`: the unknown-flag validation does not run first. -/
theorem c2_unknown_flag_not_first_counterexample :
    processArgs ["--badflag".toList, "-sd".toList, "90s".toList] =
      LineRes.errSdWithoutNightOps ∧
    processArgs ["--badflag".toList, "-sd".toList, "90s".toList] ≠
      LineRes.errUnknownFlag "--badflag".toList :=
  ⟨by decide, by decide⟩

/-- C2 amended: the `-sd`/`--night-ops` combination checks run before the
unknown-flag validation: whenever the flag list contains `-sd` without
`--night-ops`, or `--night-ops` without `-sd`, the resulting rejection is
never the unknown-flag rejection, even if an unrecognized flag is present. -/
theorem c2_sd_night_ops_checks_precede_unknown_flag
    (args : List (List Char)) (f : List Char)
    (h : ("-sd".toList ∈ args ∧ "--night-ops".toList ∉ args) ∨
         ("--night-ops".toList ∈ args ∧ "-sd".toList ∉ args)) :
    processArgs args ≠ LineRes.errUnknownFlag f := by
  rcases h with ⟨hsd, hno⟩ | ⟨hno, hsd⟩
  · rcases processArgs_sd_no_nightops args hsd hno with h | h | h <;>
      rw [h] <;> intro hc <;> cases hc
  · have hs : splitAtSd args = none := splitAtSd_of_not_mem args hsd
    have hnb : args.contains "--night-ops".toList = true :=
      (contains_true_iff args _).mpr hno
    simp only [processArgs, hs, hnb]
    unfold afterSd
    rw [if_neg (by simp), if_pos (by simp)]
    intro hc
    cases hc

/-- Witness for C2's amended theorem at a concrete flag list carrying both
an unknown flag and an illegal `-sd` combination. -/
theorem c2_sd_night_ops_checks_precede_unknown_flag_witness :
    ("-sd".toList ∈ ["--badflag".toList, "-sd".toList, "90s".toList] ∧
     "--night-ops".toList ∉ ["--badflag".toList, "-sd".toList, "90s".toList]) ∧
    processArgs ["--badflag".toList, "-sd".toList, "90s".toList] ≠
      LineRes.errUnknownFlag "--badflag".toList :=
  ⟨⟨by decide, by decide⟩,
   c2_sd_night_ops_checks_precede_unknown_flag _ _
     (Or.inl ⟨by decide, by decide⟩)⟩

/-- C3 counterexample: `https://x/app.bundle.js` contains `.bundle.js`, does
not match the API rule, yet is categorized SCRIPTS (its extension is `.js`),
not HTML / FRAMEWORK as the claim states. -/
theorem c3_bundle_suffix_counterexample :
    strstr_bool ".bundle.js".toList "https://x/app.bundle.js".toList = true ∧
    api_hit "https://x/app.bundle.js".toList = false ∧
    categorize_url "https://x/app.bundle.js".toList = "SCRIPTS" ∧
    categorize_url "https://x/app.bundle.js".toList ≠ "HTML / FRAMEWORK" := by
  refine ⟨by decide, by decide, by decide, by decide⟩

/-- C3 amended: a URL containing `.bundle.js` or `.chunk.js` that does not
match the API rule is categorized HTML / FRAMEWORK only when its lowercased
extension is outside the SCRIPTS/MEDIA/DOCUMENTS tables consulted first; a
URL that ends in `.bundle.js` or `.chunk.js` has extension `.js` and is
categorized SCRIPTS instead. -/
theorem c3_bundle_chunk_categorization :
    (∀ u : List Char, api_hit u = false →
      (strstr_bool ".bundle.js".toList u ||
       strstr_bool ".chunk.js".toList u) = true →
      lower_ext u ∉ pre_html_exts →
      categorize_url u = "HTML / FRAMEWORK") ∧
    (∀ v u : List Char,
      (u = v ++ ".bundle.js".toList ∨ u = v ++ ".chunk.js".toList) →
      api_hit u = false →
      categorize_url u = "SCRIPTS") := by
  constructor
  · intro u hapi hbc hext
    simp [pre_html_exts] at hext
    obtain ⟨n1, n2, n3, n4, n5, n6, n7, n8, n9, n10, n11, n12, n13, n14, n15,
      n16, n17, n18, n19, n20, n21⟩ := hext
    unfold categorize_url
    rw [if_neg (by simp [hapi])]
    rw [if_neg (by simp [n1, n2])]
    rw [if_neg (by simp [n3, n4, n5, n6, n7, n8, n9, n10, n11, n12])]
    rw [if_neg (by simp [n13, n14, n15, n16, n17, n18, n19, n20, n21])]
    rw [if_pos (by
      simp only [Bool.or_eq_true]
      rcases Bool.or_eq_true_iff.mp hbc with h | h
      · exact Or.inl (Or.inr h)
      · exact Or.inr h)]
  · intro v u hu hapi
    have hlow : lower_ext u = ".js".toList := by
      rcases hu with rfl | rfl
      · exact lower_ext_eq_js _ (get_ext_append_bundle v)
      · exact lower_ext_eq_js _ (get_ext_append_chunk v)
    unfold categorize_url
    rw [if_neg (by simp [hapi]), if_pos (by simp [hlow])]

/-- Witness for C3's amended theorem: a query-string bundle URL goes to
HTML / FRAMEWORK, a URL ending in `.bundle.js` goes to SCRIPTS. -/
theorem c3_bundle_chunk_categorization_witness :
    categorize_url "https://x/app.bundle.js?v=1".toList = "HTML / FRAMEWORK" ∧
    categorize_url ("https://x/app".toList ++ ".bundle.js".toList) =
      "SCRIPTS" :=
  ⟨c3_bundle_chunk_categorization.1 _ (by decide) (by decide) (by decide),
   c3_bundle_chunk_categorization.2 "https://x/app".toList _ (Or.inl rfl)
     (by decide)⟩

/-- C4 counterexample: the text `http://a/http://b` contains two occurrences
of the scheme literal `http://`, but the extractor's `http://` pass returns
only one token (the second occurrence lies inside the first token, and the
scan resumes after the token). -/
theorem c4_occurrence_count_counterexample :
    countOccs httpLit "http://a/http://b".toList = 2 ∧
    (scanScheme httpLit "http://a/http://b".toList).length = 1 := by
  exact ⟨by decide, by decide⟩

/-- C4 amended: for each scheme literal, the extractor's pass returns
exactly N tokens where N is the number of occurrences, provided no
occurrence of the literal falls inside another occurrence's extracted token
(formally, the `sepOk` separation condition); each token is terminated at
the first whitespace/quote/angle boundary (see the token invariant
theorem of the extractor). -/
theorem c4_extractor_token_count (s : List Char)
    (hs : s = httpLit ∨ s = httpsLit ∨ s = blobLit) (l : List Char)
    (hsep : sepOk s l = true) :
    (scanScheme s l).length = countOccs s l := by
  have hne : s ≠ [] := by rcases hs with rfl | rfl | rfl <;> decide
  have hstop : ∀ x ∈ s, isStop x = false := by
    rcases hs with rfl | rfl | rfl <;> decide
  exact scan_length_eq_countOccs_aux s hne hstop l.length l (le_refl _) hsep

/-- Witness for C4's amended theorem on a text with two separated
occurrences of `http://`. -/
theorem c4_extractor_token_count_witness :
    sepOk httpLit "see http://a.com and http://b.org".toList = true ∧
    (scanScheme httpLit "see http://a.com and http://b.org".toList).length =
      countOccs httpLit "see http://a.com and http://b.org".toList :=
  ⟨by decide, c4_extractor_token_count httpLit (Or.inl rfl) _ (by decide)⟩

/-- C5: any flag list containing `-sd` but not `--night-ops` is rejected by
one of the three `-sd` rejections (missing value, invalid duration, or
`-sd` without `--night-ops`), whatever the duration value is; no scrape is
dispatched and the session continues. -/
theorem c5_sd_without_night_ops_rejected (args : List (List Char))
    (hsd : "-sd".toList ∈ args) (hno : "--night-ops".toList ∉ args) :
    is_sd_rejection (processArgs args) = true := by
  rcases processArgs_sd_no_nightops args hsd hno with h | h | h <;>
    rw [h] <;> rfl

/-- Witness for C5 on the flag list `-sd 90s` (a valid duration). -/
theorem c5_sd_without_night_ops_rejected_witness :
    ("-sd".toList ∈ ["-sd".toList, "90s".toList]) ∧
    ("--night-ops".toList ∉ ["-sd".toList, "90s".toList]) ∧
    is_sd_rejection (processArgs ["-sd".toList, "90s".toList]) = true :=
  ⟨by decide, by decide,
   c5_sd_without_night_ops_rejected _ (by decide) (by decide)⟩

/-- C6: the duration parser maps `90s` to 90, `1h30m` to 5400 and the
bare-digit string `2` to 2, and rejects `0s` (non-positive) and `abc`
(unparseable) with the failure value -1. -/
theorem c6_duration_parser_examples :
    parse_duration_seconds "90s".toList = 90 ∧
    parse_duration_seconds "1h30m".toList = 5400 ∧
    parse_duration_seconds "2".toList = 2 ∧
    parse_duration_seconds "0s".toList = -1 ∧
    parse_duration_seconds "abc".toList = -1 := by
  exact ⟨by decide, by decide, by decide, by decide, by decide⟩

/-- C7: the categorizer is total and deterministic (a function into the six
fixed labels), and the API rule (literal `/api/` substring or
case-insensitive `graphql`) takes precedence over every extension rule. -/
theorem c7_categorizer_total_api_precedence (u : List Char) :
    categorize_url u ∈ category_labels ∧
    (api_hit u = true → categorize_url u = "API / ENDPOINTS") := by
  constructor
  · unfold categorize_url
    split
    · simp [category_labels]
    split
    · simp [category_labels]
    split
    · simp [category_labels]
    split
    · simp [category_labels]
    split
    · simp [category_labels]
    · simp [category_labels]
  · intro hx
    unfold categorize_url
    rw [if_pos hx]

/-- Witness for C7 at `https://h/api/x.json`: the `/api/` substring rule
wins over the `.json` extension rule. -/
theorem c7_categorizer_total_api_precedence_witness :
    categorize_url "https://h/api/x.json".toList ∈ category_labels ∧
    categorize_url "https://h/api/x.json".toList = "API / ENDPOINTS" :=
  ⟨(c7_categorizer_total_api_precedence _).1,
   (c7_categorizer_total_api_precedence _).2 (by decide)⟩

/-- C8: the standalone `--night-ops` branch performs no filesystem operation
and continues the session loop whenever the confirmation read fails or the
response does not begin with `y` or `Y`. -/
theorem c8_night_ops_nonaffirmative_no_mutation (resp : Option (List Char))
    (h : ∀ a, resp = some a → a.head? ≠ some 'y' ∧ a.head? ≠ some 'Y') :
    night_ops_standalone resp = ([], SessionStep.continueLoop) := by
  cases resp with
  | none => rfl
  | some a =>
    obtain ⟨h1, h2⟩ := h a rfl
    simp [night_ops_standalone, h1, h2]

/-- Witness for C8 on the response `n`. -/
theorem c8_night_ops_nonaffirmative_no_mutation_witness :
    night_ops_standalone (some "n\n".toList) = ([], SessionStep.continueLoop) :=
  c8_night_ops_nonaffirmative_no_mutation _ (fun a ha => by
    cases ha
    exact ⟨by decide, by decide⟩)

/-- C9: URL normalization is idempotent on non-empty tokens: the output of
`normalize_url` is a fixed point of `normalize_url`. -/
theorem c9_normalize_url_idempotent (u : List Char) (h : u ≠ []) :
    (normalize_url u).bind normalize_url = normalize_url u := by
  by_cases h1 : (httpLit.isPrefixOf u || httpsLit.isPrefixOf u) = true
  · have e : normalize_url u = some u := by
      unfold normalize_url
      rw [if_neg h, if_pos h1]
    rw [e]
    simp only [Option.some_bind]
    exact e
  · by_cases h2 : ("www.".toList).isPrefixOf u = true
    · have e : normalize_url u = some ("https://".toList ++ u) := by
        unfold normalize_url
        rw [if_neg h, if_neg h1, if_pos h2]
      rw [e]
      simp only [Option.some_bind]
      exact normalize_of_https_prefix _ (https_prefix_of_https_append u)
    · by_cases h3 : (u.contains '.' || u.contains ':') = true
      · have e : normalize_url u = some ("https://".toList ++ u) := by
          unfold normalize_url
          rw [if_neg h, if_neg h1, if_neg h2, if_pos h3]
        rw [e]
        simp only [Option.some_bind]
        exact normalize_of_https_prefix _ (https_prefix_of_https_append u)
      · have e : normalize_url u = some u := by
          unfold normalize_url
          rw [if_neg h, if_neg h1, if_neg h2, if_neg h3]
        rw [e]
        simp only [Option.some_bind]
        exact e

/-- Witness for C9 on the token `example.com`. -/
theorem c9_normalize_url_idempotent_witness :
    ("example.com".toList ≠ []) ∧
    (normalize_url "example.com".toList).bind normalize_url =
      normalize_url "example.com".toList :=
  ⟨by decide, c9_normalize_url_idempotent _ (by decide)⟩

/-- C10: every token produced by the extractor begins with one of the three
scheme literals and contains no whitespace and none of `"` `'` `<` `>`. -/
theorem c10_extractor_token_invariant (html tok : List Char)
    (h : tok ∈ extract_urls_from_html html) :
    (httpLit <+: tok ∨ httpsLit <+: tok ∨ blobLit <+: tok) ∧
      ∀ c ∈ tok, isStop c = false := by
  unfold extract_urls_from_html scanScheme at h
  rcases List.mem_append.mp h with h12 | h3
  · rcases List.mem_append.mp h12 with h1 | h2
    · obtain ⟨hp, hs⟩ := scan_tokens_sound httpLit (by decide) (by decide)
        _ _ _ h1
      exact ⟨Or.inl hp, hs⟩
    · obtain ⟨hp, hs⟩ := scan_tokens_sound httpsLit (by decide) (by decide)
        _ _ _ h2
      exact ⟨Or.inr (Or.inl hp), hs⟩
  · obtain ⟨hp, hs⟩ := scan_tokens_sound blobLit (by decide) (by decide)
      _ _ _ h3
    exact ⟨Or.inr (Or.inr hp), hs⟩

/-- Witness for C10 on a token extracted from a small page text. -/
theorem c10_extractor_token_invariant_witness :
    ("http://a.b".toList ∈ extract_urls_from_html "x http://a.b y".toList) ∧
    ((httpLit <+: "http://a.b".toList ∨ httpsLit <+: "http://a.b".toList ∨
      blobLit <+: "http://a.b".toList) ∧
      ∀ c ∈ "http://a.b".toList, isStop c = false) :=
  ⟨by decide, c10_extractor_token_invariant "x http://a.b y".toList
    "http://a.b".toList (by decide)⟩
